import Mathlib

/-!
Verification of the text-codec library (Borewit/text-codec).

The development shallowly embeds `src/lib/index.ts`.  Byte buffers
(`Uint8Array`) are `List Nat` with each element a byte value, and
JavaScript strings are `List Nat` of 16-bit code units (the result of
`charCodeAt` at each index).  The dispatcher `textDecode`/`textEncode`
returns `Except String` to model the thrown `RangeError`.

The UTF-8 and UTF-16 codec bodies (`utf8fromStringLoose`,
`utf8toStringLoose`, `utf16fromStringLoose`, `utf16toStringLoose`) are
imported by the source from `@exodus/bytes` and are not part of the
repository sources; they are modelled here from the specification
(sections 4.2 and 4.3), as marked on each definition.
-/

namespace TextCodec

/-- ASCII lowercasing of one character, as
`String.prototype.toLowerCase` acts on the characters appearing in
encoding identifiers (the recognized identifiers are all ASCII). -/
def charLower (c : Char) : Char :=
  match c with
  | 'A' => 'a' | 'B' => 'b' | 'C' => 'c' | 'D' => 'd' | 'E' => 'e'
  | 'F' => 'f' | 'G' => 'g' | 'H' => 'h' | 'I' => 'i' | 'J' => 'j'
  | 'K' => 'k' | 'L' => 'l' | 'M' => 'm' | 'N' => 'n' | 'O' => 'o'
  | 'P' => 'p' | 'Q' => 'q' | 'R' => 'r' | 'S' => 's' | 'T' => 't'
  | 'U' => 'u' | 'V' => 'v' | 'W' => 'w' | 'X' => 'x' | 'Y' => 'y'
  | 'Z' => 'z' | _ => c

/-- `encoding.toLowerCase()` as used by the dispatcher switches. -/
def jsToLower (s : String) : String := String.mk (s.data.map charLower)

/-- Surrogate-range helpers (spec section 3: high 0xD800-0xDBFF, low 0xDC00-0xDFFF). -/
def isHighSurrogate (c : Nat) : Bool := decide (0xD800 ≤ c ∧ c ≤ 0xDBFF)

/-- Low surrogate test. -/
def isLowSurrogate (c : Nat) : Bool := decide (0xDC00 ≤ c ∧ c ≤ 0xDFFF)

/-- Any surrogate test. -/
def isSurrogate (c : Nat) : Bool := decide (0xD800 ≤ c ∧ c ≤ 0xDFFF)

/-- The `WINDOWS_1252_EXTRA` table of `src/lib/index.ts` (27 assigned
entries for bytes 0x80-0x9F; unassigned bytes and bytes outside the
range yield `none`).  Each string value of the source table is a single
BMP character, represented here by its code unit. -/
def WINDOWS_1252_EXTRA (b : Nat) : Option Nat :=
  match b with
  | 0x80 => some 0x20AC
  | 0x82 => some 0x201A
  | 0x83 => some 0x0192
  | 0x84 => some 0x201E
  | 0x85 => some 0x2026
  | 0x86 => some 0x2020
  | 0x87 => some 0x2021
  | 0x88 => some 0x02C6
  | 0x89 => some 0x2030
  | 0x8A => some 0x0160
  | 0x8B => some 0x2039
  | 0x8C => some 0x0152
  | 0x8E => some 0x017D
  | 0x91 => some 0x2018
  | 0x92 => some 0x2019
  | 0x93 => some 0x201C
  | 0x94 => some 0x201D
  | 0x95 => some 0x2022
  | 0x96 => some 0x2013
  | 0x97 => some 0x2014
  | 0x98 => some 0x02DC
  | 0x99 => some 0x2122
  | 0x9A => some 0x0161
  | 0x9B => some 0x203A
  | 0x9C => some 0x0153
  | 0x9E => some 0x017E
  | 0x9F => some 0x0178
  | _ => none

/-- The `WINDOWS_1252_REVERSE` table of `src/lib/index.ts`, built in the
source by inverting `WINDOWS_1252_EXTRA`; written out explicitly here
(the inversion property is proved in `reverse_extra`). -/
def WINDOWS_1252_REVERSE (c : Nat) : Option Nat :=
  match c with
  | 0x20AC => some 0x80
  | 0x201A => some 0x82
  | 0x0192 => some 0x83
  | 0x201E => some 0x84
  | 0x2026 => some 0x85
  | 0x2020 => some 0x86
  | 0x2021 => some 0x87
  | 0x02C6 => some 0x88
  | 0x2030 => some 0x89
  | 0x0160 => some 0x8A
  | 0x2039 => some 0x8B
  | 0x0152 => some 0x8C
  | 0x017D => some 0x8E
  | 0x2018 => some 0x91
  | 0x2019 => some 0x92
  | 0x201C => some 0x93
  | 0x201D => some 0x94
  | 0x2022 => some 0x95
  | 0x2013 => some 0x96
  | 0x2014 => some 0x97
  | 0x02DC => some 0x98
  | 0x2122 => some 0x99
  | 0x0161 => some 0x9A
  | 0x203A => some 0x9B
  | 0x0153 => some 0x9C
  | 0x017E => some 0x9E
  | 0x0178 => some 0x9F
  | _ => none

/-- `decodeASCII` of `src/lib/index.ts`: each byte is masked with 0x7F.
The source builds the output string in chunks of `CHUNK` code units
purely to limit `String.fromCharCode.apply` argument counts; the joined
result is the plain per-byte map modelled here. -/
def decodeASCII (bytes : List Nat) : List Nat :=
  bytes.map (fun b => b &&& 0x7F)

/-- `decodeLatin1` of `src/lib/index.ts`: identity mapping byte to code
unit (same chunking remark as `decodeASCII`). -/
def decodeLatin1 (bytes : List Nat) : List Nat :=
  bytes.map (fun b => b)

/-- `decodeWindows1252` of `src/lib/index.ts`: bytes 0x80-0x9F go
through `WINDOWS_1252_EXTRA` when assigned (`extra ?? fromCharCode(b)`),
everything else is identity. -/
def decodeWindows1252 (bytes : List Nat) : List Nat :=
  bytes.map (fun b =>
    ((if 0x80 ≤ b ∧ b ≤ 0x9F then WINDOWS_1252_EXTRA b else none).getD b))

/-- `encodeASCII` of `src/lib/index.ts`: `charCodeAt(i) & 0x7f`. -/
def encodeASCII (s : List Nat) : List Nat :=
  s.map (fun c => c &&& 0x7F)

/-- `encodeLatin1` of `src/lib/index.ts`: `charCodeAt(i) & 0xff`. -/
def encodeLatin1 (s : List Nat) : List Nat :=
  s.map (fun c => c &&& 0xFF)

/-- `encodeWindows1252` of `src/lib/index.ts`: code units up to 0xFF are
emitted directly; larger units are looked up in `WINDOWS_1252_REVERSE`
and fall back to 0x3F. -/
def encodeWindows1252 (s : List Nat) : List Nat :=
  s.map (fun c =>
    if c ≤ 0xFF then c else (WINDOWS_1252_REVERSE c).getD 0x3F)

/-- Modelled from the spec: UTF-8 byte sequence of one code point
(section 4.2 encode, standard 1/2/3/4-byte length rules); the concrete
implementation lives in `@exodus/bytes/utf8.js` (`utf8fromStringLoose`),
which is not part of this repository. -/
def utf8EncodeCodePoint (cp : Nat) : List Nat :=
  if cp ≤ 0x7F then [cp]
  else if cp ≤ 0x7FF then [0xC0 + cp / 64, 0x80 + cp % 64]
  else if cp ≤ 0xFFFF then
    [0xE0 + cp / 4096, 0x80 + cp / 64 % 64, 0x80 + cp % 64]
  else
    [0xF0 + cp / 262144, 0x80 + cp / 4096 % 64, 0x80 + cp / 64 % 64,
      0x80 + cp % 64]

/-- Modelled from the spec: `utf8fromStringLoose` of `@exodus/bytes`
(not in this repository's sources).  Spec section 4.2 encode: a high
surrogate immediately followed by a low surrogate combines to
`0x10000 + (high - 0xD800) * 0x400 + (low - 0xDC00)` and is encoded as
4 bytes; any lone surrogate is replaced with U+FFFD (bytes EF BF BD);
all other code units use the standard byte-length rules. -/
def utf8fromStringLoose : List Nat → List Nat
  | [] => []
  | [c] => if isSurrogate c then [0xEF, 0xBF, 0xBD] else utf8EncodeCodePoint c
  | c :: d :: rest =>
    if isHighSurrogate c && isLowSurrogate d then
      utf8EncodeCodePoint (0x10000 + (c - 0xD800) * 0x400 + (d - 0xDC00))
        ++ utf8fromStringLoose rest
    else if isSurrogate c then [0xEF, 0xBF, 0xBD] ++ utf8fromStringLoose (d :: rest)
    else utf8EncodeCodePoint c ++ utf8fromStringLoose (d :: rest)

/-- Code-unit sequence of one code point: code points above 0xFFFF are
emitted as a surrogate pair (spec section 3 data model). -/
def utf16Units (cp : Nat) : List Nat :=
  if cp ≤ 0xFFFF then [cp]
  else [0xD800 + (cp - 0x10000) / 0x400, 0xDC00 + (cp - 0x10000) % 0x400]

/-- Lower bound for the first continuation byte of a 3-byte lead (spec
section 4.2 decode: an 0xE0 lead requires its first continuation
at least 0xA0, rejecting overlong forms). -/
def cont3lo (b : Nat) : Nat := if b = 0xE0 then 0xA0 else 0x80

/-- Upper bound for the first continuation byte of a 3-byte lead (an
0xED lead caps at 0x9F, rejecting encoded surrogates). -/
def cont3hi (b : Nat) : Nat := if b = 0xED then 0x9F else 0xBF

/-- Lower bound for the first continuation byte of a 4-byte lead (an
0xF0 lead requires at least 0x90, rejecting overlong forms). -/
def cont4lo (b : Nat) : Nat := if b = 0xF0 then 0x90 else 0x80

/-- Upper bound for the first continuation byte of a 4-byte lead (an
0xF4 lead caps at 0x8F, rejecting code points above U+10FFFF). -/
def cont4hi (b : Nat) : Nat := if b = 0xF4 then 0x8F else 0xBF

/-- Modelled from the spec: `utf8toStringLoose` of `@exodus/bytes` (not
in this repository's sources).  Spec section 4.2 decode: greedy
left-to-right recognition of the shortest valid sequence with the exact
lead/continuation ranges given there; on a malformed sequence exactly
one U+FFFD is substituted and scanning resumes at the first
not-yet-accepted byte (Unicode maximal-subpart substitution). -/
def utf8toStringLoose : List Nat → List Nat
  | [] => []
  | b :: rest =>
    if b ≤ 0x7F then b :: utf8toStringLoose rest
    else if 0xC2 ≤ b ∧ b ≤ 0xDF then
      match rest with
      | c1 :: r1 =>
        if 0x80 ≤ c1 ∧ c1 ≤ 0xBF then
          ((b - 0xC0) * 64 + (c1 - 0x80)) :: utf8toStringLoose r1
        else 0xFFFD :: utf8toStringLoose (c1 :: r1)
      | [] => [0xFFFD]
    else if 0xE0 ≤ b ∧ b ≤ 0xEF then
      match rest with
      | c1 :: r1 =>
        if cont3lo b ≤ c1 ∧ c1 ≤ cont3hi b then
          match r1 with
          | c2 :: r2 =>
            if 0x80 ≤ c2 ∧ c2 ≤ 0xBF then
              ((b - 0xE0) * 4096 + (c1 - 0x80) * 64 + (c2 - 0x80))
                :: utf8toStringLoose r2
            else 0xFFFD :: utf8toStringLoose (c2 :: r2)
          | [] => [0xFFFD]
        else 0xFFFD :: utf8toStringLoose (c1 :: r1)
      | [] => [0xFFFD]
    else if 0xF0 ≤ b ∧ b ≤ 0xF4 then
      match rest with
      | c1 :: r1 =>
        if cont4lo b ≤ c1 ∧ c1 ≤ cont4hi b then
          match r1 with
          | c2 :: r2 =>
            if 0x80 ≤ c2 ∧ c2 ≤ 0xBF then
              match r2 with
              | c3 :: r3 =>
                if 0x80 ≤ c3 ∧ c3 ≤ 0xBF then
                  utf16Units ((b - 0xF0) * 262144 + (c1 - 0x80) * 4096
                      + (c2 - 0x80) * 64 + (c3 - 0x80))
                    ++ utf8toStringLoose r3
                else 0xFFFD :: utf8toStringLoose (c3 :: r3)
              | [] => [0xFFFD]
            else 0xFFFD :: utf8toStringLoose (c2 :: r2)
          | [] => [0xFFFD]
        else 0xFFFD :: utf8toStringLoose (c1 :: r1)
      | [] => [0xFFFD]
    else 0xFFFD :: utf8toStringLoose rest

/-- Modelled from the spec: `utf16fromStringLoose` of `@exodus/bytes`
(not in this repository's sources).  Spec sections 4.3 and 9: each
16-bit code unit is emitted as two bytes in the configured order with
no surrogate validation (pass-through). -/
def utf16fromStringLoose (s : List Nat) (be : Bool) : List Nat :=
  s.flatMap (fun c =>
    if be then [c / 256 % 256, c % 256] else [c % 256, c / 256 % 256])

/-- Modelled from the spec: byte-pair reading step of
`utf16toStringLoose` (section 4.3 decode): consecutive byte pairs are
combined into 16-bit code units per the configured order.  The
dispatcher only calls this on even-length buffers (it strips a trailing
odd byte first), so a lone final byte yields nothing here. -/
def utf16ReadUnits : List Nat → Bool → List Nat
  | b0 :: b1 :: rest, be =>
    (if be then b0 * 256 + b1 else b1 * 256 + b0) :: utf16ReadUnits rest be
  | _, _ => []

/-- Modelled from the spec: lone-surrogate substitution of
`utf16toStringLoose` (sections 4.3 and 9): scanning left to right, a
high surrogate immediately followed by a low surrogate is kept as a
pair; any other surrogate-range unit becomes one U+FFFD individually. -/
def fixLoneSurrogates : List Nat → List Nat
  | [] => []
  | [c] => [if isSurrogate c then 0xFFFD else c]
  | c :: d :: rest =>
    if isHighSurrogate c && isLowSurrogate d then
      c :: d :: fixLoneSurrogates rest
    else (if isSurrogate c then 0xFFFD else c) :: fixLoneSurrogates (d :: rest)

/-- Modelled from the spec: `utf16toStringLoose` of `@exodus/bytes`
(not in this repository's sources): read byte pairs per the configured
order, then substitute lone surrogates with U+FFFD. -/
def utf16toStringLoose (bytes : List Nat) (be : Bool) : List Nat :=
  fixLoneSurrogates (utf16ReadUnits bytes be)

/-- `textDecode` of `src/lib/index.ts`.  The switch scrutinee is
`encoding.toLowerCase()`; note that inside the UTF-16 branch the byte
order is chosen by comparing the original, un-lowercased `encoding`
with the literal `utf-16be`, exactly as in the source. -/
def textDecode (bytes : List Nat) (encoding : String) :
    Except String (List Nat) :=
  match jsToLower encoding with
  | "utf-8" | "utf8" => .ok (utf8toStringLoose bytes)
  | "utf-16le" | "utf-16be" =>
    let trimmed :=
      if bytes.length % 2 = 1 then bytes.take (bytes.length - 1) else bytes
    let suffix : List Nat := if bytes.length % 2 = 1 then [0xFFFD] else []
    .ok (utf16toStringLoose trimmed (encoding == "utf-16be") ++ suffix)
  | "us-ascii" | "ascii" => .ok (decodeASCII bytes)
  | "latin1" | "iso-8859-1" => .ok (decodeLatin1 bytes)
  | "windows-1252" => .ok (decodeWindows1252 bytes)
  | _ => .error ("Encoding " ++ encoding ++ " not supported")

/-- `textEncode` of `src/lib/index.ts`. -/
def textEncode (input : List Nat) (encoding : String) :
    Except String (List Nat) :=
  match jsToLower encoding with
  | "utf-8" | "utf8" => .ok (utf8fromStringLoose input)
  | "utf-16le" => .ok (utf16fromStringLoose input false)
  | "utf-16be" => .ok (utf16fromStringLoose input true)
  | "us-ascii" | "ascii" => .ok (encodeASCII input)
  | "latin1" | "iso-8859-1" => .ok (encodeLatin1 input)
  | "windows-1252" => .ok (encodeWindows1252 input)
  | _ => .error ("Encoding " ++ encoding ++ " not supported")

/-- The recognized identifiers of spec section 6, tested after
lowercasing (case-insensitive resolution). -/
def recognizedEncoding (e : String) : Bool :=
  (["utf-8", "utf8", "utf-16le", "utf-16be", "us-ascii", "ascii",
    "latin1", "iso-8859-1", "windows-1252"] : List String).contains
    (jsToLower e)

/-- Well-formed code-unit sequences (spec section 3 data model): every
unit is a 16-bit value and every surrogate-range unit is part of a
high-low pair. -/
def wellFormedUnits : List Nat → Bool
  | [] => true
  | [c] => decide (c < 65536) && !(isSurrogate c)
  | c :: d :: rest =>
    if isHighSurrogate c then isLowSurrogate d && wellFormedUnits rest
    else (decide (c < 65536) && !(isSurrogate c)) && wellFormedUnits (d :: rest)

/-- A code unit the windows-1252 codec round-trips: either it is a
byte value whose decoding is not remapped by the extension table, or it
is one of the 27 extension code points (reverse-mapped on encode). -/
def w1252LosslessUnit (c : Nat) : Bool :=
  (decide (c ≤ 0xFF) && (WINDOWS_1252_EXTRA c).isNone)
    || (WINDOWS_1252_REVERSE c).isSome

/-- Code-unit sequences representable without loss in an encoding
(per canonical lowercase identifier): each unit must survive the encode
rules unchanged and be mapped back to itself by decode. -/
def representableIn (e : String) (s : List Nat) : Bool :=
  if e = "utf-8" || e = "utf8" then wellFormedUnits s
  else if e = "utf-16le" || e = "utf-16be" then wellFormedUnits s
  else if e = "us-ascii" || e = "ascii" then
    s.all (fun c => decide (c ≤ 0x7F))
  else if e = "latin1" || e = "iso-8859-1" then
    s.all (fun c => decide (c ≤ 0xFF))
  else if e = "windows-1252" then s.all w1252LosslessUnit
  else false

/-- Neighbor-based lone-surrogate substitution, written from the words
of the UTF-16 decode rule: a high surrogate is kept exactly when the
unit after it is a low surrogate, a low surrogate is kept exactly when
the unit before it is a high surrogate, every other surrogate becomes
one U+FFFD individually.  `prevHigh` records whether the preceding unit
was a high surrogate; the whole sequence is processed with `false`. -/
def utf16NeighborSub (prevHigh : Bool) : List Nat → List Nat
  | [] => []
  | [c] =>
    [if isHighSurrogate c then 0xFFFD
     else if isLowSurrogate c then (if prevHigh then c else 0xFFFD)
     else c]
  | c :: d :: rest =>
    (if isHighSurrogate c then (if isLowSurrogate d then c else 0xFFFD)
     else if isLowSurrogate c then (if prevHigh then c else 0xFFFD)
     else c) :: utf16NeighborSub (isHighSurrogate c) (d :: rest)

/-- The 27 extended-Latin code points of the windows-1252 extension
table, in table order. -/
def w1252ExtendedChars : List Nat :=
  [0x20AC, 0x201A, 0x0192, 0x201E, 0x2026, 0x2020, 0x2021, 0x02C6,
   0x2030, 0x0160, 0x2039, 0x0152, 0x017D, 0x2018, 0x2019, 0x201C,
   0x201D, 0x2022, 0x2013, 0x2014, 0x02DC, 0x2122, 0x0161, 0x203A,
   0x0153, 0x017E, 0x0178]

end TextCodec

namespace TextCodec

lemma and127_eq_mod (c : Nat) : c &&& 0x7F = c % 0x80 :=
  Nat.and_pow_two_sub_one_eq_mod c 7

lemma and255_eq_mod (c : Nat) : c &&& 0xFF = c % 0x100 :=
  Nat.and_pow_two_sub_one_eq_mod c 8

lemma extra_none_of_not_range (b : Nat) (h : ¬(0x80 ≤ b ∧ b ≤ 0x9F)) :
    WINDOWS_1252_EXTRA b = none := by
  unfold WINDOWS_1252_EXTRA
  split <;> first | rfl | (exfalso; omega)

lemma reverse_spec (u b : Nat) (h : WINDOWS_1252_REVERSE u = some b) :
    (0x80 ≤ b ∧ b ≤ 0x9F) ∧ 0xFF < u ∧ WINDOWS_1252_EXTRA b = some u := by
  unfold WINDOWS_1252_REVERSE at h
  split at h <;>
    first
    | exact Option.noConfusion h
    | (injection h with h2; subst h2; exact ⟨by omega, by omega, rfl⟩)

lemma extra_reverse (b u : Nat) (h : WINDOWS_1252_EXTRA b = some u) :
    WINDOWS_1252_REVERSE u = some b := by
  unfold WINDOWS_1252_EXTRA at h
  split at h <;>
    first
    | exact Option.noConfusion h
    | (injection h with h2; subst h2; rfl)

lemma map_roundtrip (f g : Nat → Nat) (p : Nat → Bool)
    (hfg : ∀ c, p c = true → g (f c) = c) :
    ∀ s : List Nat, s.all p = true → (s.map f).map g = s := by
  intro s hs
  induction s with
  | nil => rfl
  | cons c t ih =>
    rw [List.all_cons, Bool.and_eq_true] at hs
    simp only [List.map_cons, hfg c hs.1, ih hs.2]

end TextCodec

namespace TextCodec

lemma decodeW1252_unit (b : Nat) :
    ((if 0x80 ≤ b ∧ b ≤ 0x9F then WINDOWS_1252_EXTRA b else none).getD b)
      = (WINDOWS_1252_EXTRA b).getD b := by
  by_cases h : 0x80 ≤ b ∧ b ≤ 0x9F
  · rw [if_pos h]
  · rw [if_neg h, extra_none_of_not_range b h]

lemma ascii_unit_roundtrip (c : Nat) (h : decide (c ≤ 0x7F) = true) :
    ((c &&& 0x7F) &&& 0x7F) = c := by
  have hc : c ≤ 0x7F := of_decide_eq_true h
  rw [and127_eq_mod, and127_eq_mod]
  omega

lemma latin1_unit_roundtrip (c : Nat) (h : decide (c ≤ 0xFF) = true) :
    (c &&& 0xFF) = c := by
  have hc : c ≤ 0xFF := of_decide_eq_true h
  rw [and255_eq_mod]
  omega

lemma w1252_unit_roundtrip (c : Nat) (h : w1252LosslessUnit c = true) :
    ((if 0x80 ≤ (if c ≤ 0xFF then c else (WINDOWS_1252_REVERSE c).getD 0x3F)
          ∧ (if c ≤ 0xFF then c else (WINDOWS_1252_REVERSE c).getD 0x3F) ≤ 0x9F
        then WINDOWS_1252_EXTRA
          (if c ≤ 0xFF then c else (WINDOWS_1252_REVERSE c).getD 0x3F)
        else none).getD
      (if c ≤ 0xFF then c else (WINDOWS_1252_REVERSE c).getD 0x3F)) = c := by
  rw [decodeW1252_unit]
  unfold w1252LosslessUnit at h
  rw [Bool.or_eq_true, Bool.and_eq_true] at h
  rcases h with ⟨h1, h2⟩ | h3
  · have hc : c ≤ 0xFF := of_decide_eq_true h1
    rw [if_pos hc, Option.isNone_iff_eq_none.mp h2]
    rfl
  · rcases Option.isSome_iff_exists.mp h3 with ⟨b, hb⟩
    have hspec := reverse_spec c b hb
    rw [if_neg (by omega), hb]
    simp only [Option.getD_some, hspec.2.2]

lemma decode_encode_ascii (s : List Nat)
    (h : s.all (fun c => decide (c ≤ 0x7F)) = true) :
    decodeASCII (encodeASCII s) = s :=
  map_roundtrip _ _ _ ascii_unit_roundtrip s h

lemma decode_encode_latin1 (s : List Nat)
    (h : s.all (fun c => decide (c ≤ 0xFF)) = true) :
    decodeLatin1 (encodeLatin1 s) = s := by
  unfold decodeLatin1 encodeLatin1
  rw [List.map_map]
  have : ∀ c ∈ s, (fun b => b) ((fun c => c &&& 0xFF) c) = c := by
    intro c hc
    exact latin1_unit_roundtrip c (by
      rw [List.all_eq_true] at h
      exact h c hc)
  calc s.map ((fun b => b) ∘ fun c => c &&& 0xFF)
      = s.map (fun c => c) := List.map_congr_left this
    _ = s := by simp

lemma decode_encode_w1252 (s : List Nat)
    (h : s.all w1252LosslessUnit = true) :
    decodeWindows1252 (encodeWindows1252 s) = s :=
  map_roundtrip _ _ _ w1252_unit_roundtrip s h

end TextCodec

namespace TextCodec

/-- C8: the windows-1252 byte-to-unit and unit-to-byte maps. -/
theorem w1252_table_mapping (bytes s : List Nat) :
    decodeWindows1252 bytes
        = bytes.map (fun b => (WINDOWS_1252_EXTRA b).getD b)
    ∧ encodeWindows1252 s
        = s.map (fun c =>
            if c ≤ 0xFF then c else (WINDOWS_1252_REVERSE c).getD 0x3F)
    ∧ decodeWindows1252 [0x81, 0x8D, 0x8F, 0x90, 0x9D]
        = [0x81, 0x8D, 0x8F, 0x90, 0x9D]
    ∧ (∀ b u, WINDOWS_1252_EXTRA b = some u ↔ WINDOWS_1252_REVERSE u = some b) := by
  refine ⟨?_, rfl, rfl, ?_⟩
  · unfold decodeWindows1252
    exact List.map_congr_left (fun b _ => decodeW1252_unit b)
  · intro b u
    constructor
    · exact extra_reverse b u
    · intro h
      exact (reverse_spec u b h).2.2

/-- C9: ASCII and Latin-1 mask (truncate), never substitute. -/
theorem ascii_latin1_masking (bytes s : List Nat) :
    decodeASCII bytes = bytes.map (fun b => b % 0x80)
    ∧ encodeASCII s = s.map (fun c => c % 0x80)
    ∧ decodeLatin1 bytes = bytes
    ∧ encodeLatin1 s = s.map (fun c => c % 0x100)
    ∧ encodeASCII [0x7F, 0x80, 0xFF] = [0x7F, 0x00, 0x7F]
    ∧ decodeASCII [0x7F, 0x80, 0xFF] = [0x7F, 0x00, 0x7F] := by
  refine ⟨?_, ?_, ?_, ?_, rfl, rfl⟩
  · exact List.map_congr_left (fun b _ => and127_eq_mod b)
  · exact List.map_congr_left (fun c _ => and127_eq_mod c)
  · unfold decodeLatin1
    simp
  · exact List.map_congr_left (fun c _ => and255_eq_mod c)

/-- C10: single-byte encoders emit exactly one byte per code unit. -/
theorem single_byte_encode_length (s : List Nat) (e : String)
    (h : e ∈ (["ascii", "us-ascii", "latin1", "iso-8859-1",
        "windows-1252"] : List String)) :
    (∃ out, textEncode s e = .ok out ∧ out.length = s.length)
    ∧ textEncode [0xD83D, 0xDE00] "windows-1252" = .ok [0x3F, 0x3F] := by
  refine ⟨?_, rfl⟩
  simp only [List.mem_cons, List.not_mem_nil, or_false] at h
  rcases h with rfl | rfl | rfl | rfl | rfl
  · exact ⟨encodeASCII s, rfl, by simp [encodeASCII]⟩
  · exact ⟨encodeASCII s, rfl, by simp [encodeASCII]⟩
  · exact ⟨encodeLatin1 s, rfl, by simp [encodeLatin1]⟩
  · exact ⟨encodeLatin1 s, rfl, by simp [encodeLatin1]⟩
  · exact ⟨encodeWindows1252 s, rfl, by simp [encodeWindows1252]⟩

theorem single_byte_encode_length_witness :
    (∃ out, textEncode [0xD83D, 0xDE00] "windows-1252" = .ok out
        ∧ out.length = ([0xD83D, 0xDE00] : List Nat).length)
    ∧ textEncode [0xD83D, 0xDE00] "windows-1252" = .ok [0x3F, 0x3F] :=
  single_byte_encode_length [0xD83D, 0xDE00] "windows-1252" (by simp)

/-- C2: the dispatcher lowercases before matching, but the UTF-16
byte-order choice inside the decode branch compares the original
string, so decoding with identifier UTF-16BE in upper case uses
little-endian order. -/
theorem utf16be_uppercase_dispatch_divergence :
    textEncode [0x0041] "UTF-16BE" = .ok [0x00, 0x41]
    ∧ textEncode [0x0041] "utf-16be" = .ok [0x00, 0x41]
    ∧ textDecode [0x00, 0x41] "utf-16be" = .ok [0x0041]
    ∧ textDecode [0x00, 0x41] "UTF-16BE" = .ok [0x4100]
    ∧ ¬(([0x4100] : List Nat) = [0x0041]) :=
  ⟨rfl, rfl, rfl, rfl, by decide⟩

end TextCodec

namespace TextCodec

lemma textDecode_error_of_unrecognized (enc : String) (bytes : List Nat)
    (h : recognizedEncoding enc = false) :
    textDecode bytes enc = .error ("Encoding " ++ enc ++ " not supported") := by
  unfold recognizedEncoding at h
  unfold textDecode
  split <;>
    first
    | rfl
    | (rename_i heq; rw [heq] at h; exact absurd h (by decide))

lemma textEncode_error_of_unrecognized (enc : String) (units : List Nat)
    (h : recognizedEncoding enc = false) :
    textEncode units enc = .error ("Encoding " ++ enc ++ " not supported") := by
  unfold recognizedEncoding at h
  unfold textEncode
  split <;>
    first
    | rfl
    | (rename_i heq; rw [heq] at h; exact absurd h (by decide))

lemma textDecode_ok_of_recognized (enc : String) (bytes : List Nat)
    (h : recognizedEncoding enc = true) :
    ∃ r, textDecode bytes enc = .ok r := by
  unfold recognizedEncoding at h
  unfold textDecode
  split
  all_goals first
  | exact ⟨_, rfl⟩
  | (rw [List.contains_eq_any_beq] at h
     simp only [List.any_cons, List.any_nil, Bool.or_eq_true,
       Bool.or_false, beq_iff_eq] at h
     rcases h with h | h | h | h | h | h | h | h | h <;> simp_all)
end TextCodec

namespace TextCodec

lemma textEncode_ok_of_recognized (enc : String) (units : List Nat)
    (h : recognizedEncoding enc = true) :
    ∃ r, textEncode units enc = .ok r := by
  unfold recognizedEncoding at h
  unfold textEncode
  split
  all_goals first
  | exact ⟨_, rfl⟩
  | (rw [List.contains_eq_any_beq] at h
     simp only [List.any_cons, List.any_nil, Bool.or_eq_true,
       Bool.or_false, beq_iff_eq] at h
     rcases h with h | h | h | h | h | h | h | h | h <;> simp_all)

/-- C3: both entry points fail exactly on unrecognized identifiers
(case-insensitively), the error names the original identifier, and for
recognized identifiers no buffer or string content ever fails. -/
theorem dispatcher_error_iff_unrecognized (enc : String)
    (bytes units : List Nat) :
    ((∃ r, textDecode bytes enc = .ok r) ↔ recognizedEncoding enc = true)
    ∧ ((∃ r, textEncode units enc = .ok r) ↔ recognizedEncoding enc = true)
    ∧ (textDecode bytes enc = .error ("Encoding " ++ enc ++ " not supported")
        ↔ recognizedEncoding enc = false)
    ∧ (textEncode units enc = .error ("Encoding " ++ enc ++ " not supported")
        ↔ recognizedEncoding enc = false) := by
  have hd := textDecode_ok_of_recognized enc bytes
  have he := textEncode_ok_of_recognized enc units
  have hde := textDecode_error_of_unrecognized enc bytes
  have hee := textEncode_error_of_unrecognized enc units
  cases hrec : recognizedEncoding enc with
  | true =>
    refine ⟨⟨fun _ => rfl, fun _ => hd hrec⟩, ⟨fun _ => rfl, fun _ => he hrec⟩,
      ⟨fun habs => ?_, fun habs => by cases habs⟩,
      ⟨fun habs => ?_, fun habs => by cases habs⟩⟩
    · rcases hd hrec with ⟨r, hr⟩
      rw [hr] at habs
      cases habs
    · rcases he hrec with ⟨r, hr⟩
      rw [hr] at habs
      cases habs
  | false =>
    refine ⟨⟨fun hex => ?_, fun habs => by cases habs⟩,
      ⟨fun hex => ?_, fun habs => by cases habs⟩,
      ⟨fun _ => rfl, fun _ => hde hrec⟩, ⟨fun _ => rfl, fun _ => hee hrec⟩⟩
    · rcases hex with ⟨r, hr⟩
      rw [hde hrec] at hr
      cases hr
    · rcases hex with ⟨r, hr⟩
      rw [hee hrec] at hr
      cases hr

end TextCodec

namespace TextCodec

lemma isHigh_iff (c : Nat) :
    isHighSurrogate c = true ↔ (0xD800 ≤ c ∧ c ≤ 0xDBFF) := by
  unfold isHighSurrogate
  exact decide_eq_true_iff

lemma isLow_iff (c : Nat) :
    isLowSurrogate c = true ↔ (0xDC00 ≤ c ∧ c ≤ 0xDFFF) := by
  unfold isLowSurrogate
  exact decide_eq_true_iff

lemma isSurr_iff (c : Nat) :
    isSurrogate c = true ↔ (0xD800 ≤ c ∧ c ≤ 0xDFFF) := by
  unfold isSurrogate
  exact decide_eq_true_iff

lemma isHigh_false (c : Nat) (h : ¬(0xD800 ≤ c ∧ c ≤ 0xDBFF)) :
    isHighSurrogate c = false := by
  cases hb : isHighSurrogate c
  · rfl
  · exact absurd ((isHigh_iff c).mp hb) h

lemma isLow_false (c : Nat) (h : ¬(0xDC00 ≤ c ∧ c ≤ 0xDFFF)) :
    isLowSurrogate c = false := by
  cases hb : isLowSurrogate c
  · rfl
  · exact absurd ((isLow_iff c).mp hb) h

lemma isSurr_false (c : Nat) (h : ¬(0xD800 ≤ c ∧ c ≤ 0xDFFF)) :
    isSurrogate c = false := by
  cases hb : isSurrogate c
  · rfl
  · exact absurd ((isSurr_iff c).mp hb) h

lemma encode16_cons (c : Nat) (t : List Nat) (be : Bool) :
    utf16fromStringLoose (c :: t) be
      = (if be then [c / 256 % 256, c % 256] else [c % 256, c / 256 % 256])
        ++ utf16fromStringLoose t be := by
  unfold utf16fromStringLoose
  rw [List.flatMap_cons]

lemma encode16_length (s : List Nat) (be : Bool) :
    (utf16fromStringLoose s be).length = 2 * s.length := by
  induction s with
  | nil => rfl
  | cons c t ih =>
    rw [encode16_cons]
    cases be <;> simp only [if_true, if_false, Bool.false_eq_true,
      List.cons_append, List.nil_append, List.length_cons, ih,
      List.length_cons] <;> omega

lemma readUnits_cons (b0 b1 : Nat) (rest : List Nat) (be : Bool) :
    utf16ReadUnits (b0 :: b1 :: rest) be
      = (if be then b0 * 256 + b1 else b1 * 256 + b0)
        :: utf16ReadUnits rest be := by
  rw [utf16ReadUnits]

lemma readUnits_encode16 (be : Bool) :
    ∀ s : List Nat, (∀ c ∈ s, c < 65536) →
      utf16ReadUnits (utf16fromStringLoose s be) be = s := by
  intro s h
  induction s with
  | nil => rfl
  | cons c t ih =>
    have hc : c < 65536 := h c (List.mem_cons_self _ _)
    have ht : ∀ x ∈ t, x < 65536 := fun x hx => h x (List.mem_cons_of_mem _ hx)
    rw [encode16_cons]
    cases be <;>
      simp only [if_true, if_false, Bool.false_eq_true, List.cons_append,
        List.nil_append] <;>
      rw [readUnits_cons, ih ht] <;>
      simp only [if_true, if_false, Bool.false_eq_true] <;>
      congr 1 <;> omega

end TextCodec

namespace TextCodec

lemma wf_mem_lt : ∀ s : List Nat, wellFormedUnits s = true →
    ∀ c ∈ s, c < 65536
  | [], _, c, hc => absurd hc (List.not_mem_nil c)
  | [a], h, c, hc => by
    rw [wellFormedUnits, Bool.and_eq_true, decide_eq_true_eq] at h
    rcases List.mem_singleton.mp hc with rfl
    exact h.1
  | a :: d :: rest, h, c, hc => by
    rw [wellFormedUnits] at h
    by_cases ha : isHighSurrogate a = true
    · rw [if_pos ha, Bool.and_eq_true] at h
      rcases List.mem_cons.mp hc with rfl | hc2
      · have := (isHigh_iff _).mp ha
        omega
      · rcases List.mem_cons.mp hc2 with rfl | hc3
        · have := (isLow_iff _).mp h.1
          omega
        · exact wf_mem_lt rest h.2 c hc3
    · rw [if_neg ha, Bool.and_eq_true, Bool.and_eq_true,
        decide_eq_true_eq] at h
      rcases List.mem_cons.mp hc with rfl | hc2
      · exact h.1.1
      · exact wf_mem_lt (d :: rest) h.2 c hc2

lemma fixLone_wf : ∀ s : List Nat, wellFormedUnits s = true →
    fixLoneSurrogates s = s
  | [], _ => rfl
  | [c], h => by
    rw [wellFormedUnits, Bool.and_eq_true, Bool.not_eq_true'] at h
    rw [fixLoneSurrogates, h.2]
    rfl
  | c :: d :: rest, h => by
    rw [wellFormedUnits] at h
    rw [fixLoneSurrogates]
    by_cases hc : isHighSurrogate c = true
    · rw [if_pos hc, Bool.and_eq_true] at h
      rw [if_pos (by rw [hc, h.1]; rfl), fixLone_wf rest h.2]
    · rw [if_neg hc, Bool.and_eq_true, Bool.and_eq_true,
        Bool.not_eq_true'] at h
      obtain ⟨⟨h1, h2⟩, h3⟩ := h
      have hcc : (isHighSurrogate c && isLowSurrogate d) = false := by
        cases hhc : isHighSurrogate c
        · rfl
        · exact absurd hhc hc
      rw [if_neg (by rw [hcc]; exact Bool.false_ne_true), h2,
        fixLone_wf (d :: rest) h3]
      rfl

end TextCodec

namespace TextCodec

lemma neighbor_indep : ∀ s : List Nat,
    (∀ c r, s = c :: r → isLowSurrogate c = false) →
    utf16NeighborSub true s = utf16NeighborSub false s
  | [], _ => rfl
  | [c], h => by
    have hcl := h c [] rfl
    simp [utf16NeighborSub, hcl]
  | c :: d :: rest, h => by
    have hcl := h c (d :: rest) rfl
    simp [utf16NeighborSub, hcl]

lemma fix_eq_neighbor : ∀ s : List Nat,
    fixLoneSurrogates s = utf16NeighborSub false s
  | [] => rfl
  | [c] => by
    by_cases h1 : 0xD800 ≤ c ∧ c ≤ 0xDBFF
    · have hh : isHighSurrogate c = true := (isHigh_iff c).mpr h1
      have hs : isSurrogate c = true := (isSurr_iff c).mpr (by omega)
      simp [fixLoneSurrogates, utf16NeighborSub, hh, hs]
    · by_cases h2 : 0xDC00 ≤ c ∧ c ≤ 0xDFFF
      · have hh := isHigh_false c h1
        have hl : isLowSurrogate c = true := (isLow_iff c).mpr h2
        have hs : isSurrogate c = true := (isSurr_iff c).mpr (by omega)
        simp [fixLoneSurrogates, utf16NeighborSub, hh, hl, hs]
      · have hh := isHigh_false c h1
        have hl := isLow_false c h2
        have hs := isSurr_false c (by omega)
        simp [fixLoneSurrogates, utf16NeighborSub, hh, hl, hs]
  | c :: d :: rest => by
    by_cases h1 : 0xD800 ≤ c ∧ c ≤ 0xDBFF
    · have hh : isHighSurrogate c = true := (isHigh_iff c).mpr h1
      have hs : isSurrogate c = true := (isSurr_iff c).mpr (by omega)
      by_cases h2 : 0xDC00 ≤ d ∧ d ≤ 0xDFFF
      · have hl : isLowSurrogate d = true := (isLow_iff d).mpr h2
        have hhd : isHighSurrogate d = false := isHigh_false d (by omega)
        cases rest with
        | nil =>
          simp [fixLoneSurrogates, utf16NeighborSub, hh, hl, hhd]
        | cons e rest2 =>
          rw [fixLoneSurrogates, if_pos (by rw [hh, hl]; rfl)]
          rw [utf16NeighborSub, utf16NeighborSub]
          rw [fix_eq_neighbor (e :: rest2)]
          simp [hh, hl, hhd]
      · have hl : isLowSurrogate d = false := isLow_false d h2
        rw [fixLoneSurrogates,
          if_neg (by rw [hl]; simp), utf16NeighborSub]
        rw [fix_eq_neighbor (d :: rest), hh, hs]
        rw [neighbor_indep (d :: rest) (by intro x r hx; cases hx; exact hl)]
        simp [hl]
    · have hh : isHighSurrogate c = false := isHigh_false c h1
      rw [fixLoneSurrogates, if_neg (by rw [hh]; simp), utf16NeighborSub]
      rw [fix_eq_neighbor (d :: rest), hh]
      by_cases h2 : 0xDC00 ≤ c ∧ c ≤ 0xDFFF
      · have hl : isLowSurrogate c = true := (isLow_iff c).mpr h2
        have hs : isSurrogate c = true := (isSurr_iff c).mpr (by omega)
        simp [hl, hs]
      · have hl := isLow_false c h2
        have hs := isSurr_false c (by omega)
        simp [hl, hs]

lemma decode16_encode16 (s : List Nat) (be : Bool)
    (h : ∀ c ∈ s, c < 65536) :
    utf16toStringLoose (utf16fromStringLoose s be) be = fixLoneSurrogates s := by
  unfold utf16toStringLoose
  rw [readUnits_encode16 be s h]

end TextCodec

namespace TextCodec

lemma encode16_flatMap : ∀ (s : List Nat) (be : Bool),
    (∀ c ∈ s, c < 65536) →
    utf16fromStringLoose s be
      = s.flatMap (fun c =>
          if be then [c / 256, c % 256] else [c % 256, c / 256])
  | [], _, _ => rfl
  | c :: t, be, h => by
    have hc : c < 65536 := h c (List.mem_cons_self _ _)
    have hd : c / 256 % 256 = c / 256 := Nat.mod_eq_of_lt (by omega)
    rw [encode16_cons, List.flatMap_cons,
      encode16_flatMap t be (fun x hx => h x (List.mem_cons_of_mem _ hx)), hd]

lemma fixLone_cons_nonsurr (c : Nat) (us : List Nat)
    (h : isSurrogate c = false) :
    fixLoneSurrogates (c :: us) = c :: fixLoneSurrogates us := by
  have hh : isHighSurrogate c = false := by
    cases hb : isHighSurrogate c
    · rfl
    · have h1 := (isHigh_iff c).mp hb
      have h2 := isSurr_false c
      rw [(isSurr_iff c).mpr (by omega)] at h
      exact absurd h (by decide)
  cases us with
  | nil => simp [fixLoneSurrogates, h]
  | cons d r => simp [fixLoneSurrogates, hh, h]

lemma decode16_cons_bom (b0 b1 : Nat) (l : List Nat) (be : Bool)
    (h : (if be then b0 * 256 + b1 else b1 * 256 + b0) = 0xFEFF) :
    utf16toStringLoose (b0 :: b1 :: l) be
      = 0xFEFF :: utf16toStringLoose l be := by
  unfold utf16toStringLoose
  rw [readUnits_cons, h]
  exact fixLone_cons_nonsurr 0xFEFF _ (by decide)

lemma textDecode_utf16le (bytes : List Nat) :
    textDecode bytes "utf-16le"
      = .ok (utf16toStringLoose
            (if bytes.length % 2 = 1 then bytes.take (bytes.length - 1)
             else bytes) false
          ++ (if bytes.length % 2 = 1 then [0xFFFD] else [])) := rfl

lemma textDecode_utf16be (bytes : List Nat) :
    textDecode bytes "utf-16be"
      = .ok (utf16toStringLoose
            (if bytes.length % 2 = 1 then bytes.take (bytes.length - 1)
             else bytes) true
          ++ (if bytes.length % 2 = 1 then [0xFFFD] else [])) := rfl

end TextCodec

namespace TextCodec

/-- C4: UTF-16 encode emits each code unit as two bytes in the
configured order with no surrogate validation (lone surrogates pass
through as raw 16-bit values); decode of the encoded buffer replaces
exactly the code units that do not form a high-low pair with their
neighbor by one U+FFFD each, adjacent lone surrogates independently. -/
theorem utf16_codec_surrogate_policy (s : List Nat) (be : Bool)
    (h : ∀ c ∈ s, c < 65536) :
    utf16fromStringLoose s be
        = s.flatMap (fun c =>
            if be then [c / 256, c % 256] else [c % 256, c / 256])
    ∧ utf16toStringLoose (utf16fromStringLoose s be) be = fixLoneSurrogates s
    ∧ (∀ t, fixLoneSurrogates t = utf16NeighborSub false t)
    ∧ utf16fromStringLoose [0xD800] false = [0x00, 0xD8]
    ∧ textDecode (utf16fromStringLoose [0xD800, 0xD800] false) "utf-16le"
        = .ok [0xFFFD, 0xFFFD] :=
  ⟨encode16_flatMap s be h, decode16_encode16 s be h, fix_eq_neighbor,
    rfl, rfl⟩

theorem utf16_codec_surrogate_policy_witness :
    utf16fromStringLoose [0x41, 0xD800] false
        = [0x41, 0xD800].flatMap (fun c => [c % 256, c / 256])
    ∧ utf16toStringLoose (utf16fromStringLoose [0x41, 0xD800] false) false
        = fixLoneSurrogates [0x41, 0xD800] :=
  ⟨(utf16_codec_surrogate_policy [0x41, 0xD800] false (by decide)).1,
    (utf16_codec_surrogate_policy [0x41, 0xD800] false (by decide)).2.1⟩

end TextCodec

namespace TextCodec

lemma take_len_cons_cons (b0 b1 : Nat) (rest : List Nat) (m : Nat)
    (hm : rest.length = m + 1) :
    (b0 :: b1 :: rest).take ((b0 :: b1 :: rest).length - 1)
      = b0 :: b1 :: rest.take (rest.length - 1) := by
  have h1 : (b0 :: b1 :: rest).length - 1 = (m + 1) + 1 := by
    simp [List.length_cons, hm]
  rw [h1, List.take_succ_cons, List.take_succ_cons, hm]
  simp

/-- C7: UTF-16 decoding of an odd-length buffer decodes the even
prefix and appends exactly one U+FFFD; a leading byte pair encoding
0xFEFF yields the literal code unit U+FEFF and the remaining bytes are
decoded unchanged in the same configured byte order. -/
theorem utf16_decode_odd_length_and_bom (bytes : List Nat) (e : String)
    (b0 b1 : Nat) (rest : List Nat)
    (he : e = "utf-16le" ∨ e = "utf-16be")
    (hodd : bytes.length % 2 = 1)
    (hbom : (if e = "utf-16be" then b0 * 256 + b1 else b1 * 256 + b0)
        = 0xFEFF) :
    (∃ r, textDecode (bytes.take (bytes.length - 1)) e = .ok r
        ∧ textDecode bytes e = .ok (r ++ [0xFFFD]))
    ∧ (∃ r2, textDecode rest e = .ok r2
        ∧ textDecode (b0 :: b1 :: rest) e = .ok (0xFEFF :: r2)) := by
  have hterm : ∀ be : Bool,
      (∃ r, (Except.ok (utf16toStringLoose
            (if (bytes.take (bytes.length - 1)).length % 2 = 1 then
              (bytes.take (bytes.length - 1)).take
                ((bytes.take (bytes.length - 1)).length - 1)
             else bytes.take (bytes.length - 1)) be
          ++ (if (bytes.take (bytes.length - 1)).length % 2 = 1 then
              [0xFFFD] else [])) : Except String (List Nat)) = .ok r
        ∧ (Except.ok (utf16toStringLoose
            (if bytes.length % 2 = 1 then bytes.take (bytes.length - 1)
             else bytes) be
          ++ (if bytes.length % 2 = 1 then [0xFFFD] else []))
            : Except String (List Nat)) = .ok (r ++ [0xFFFD])) := by
    intro be
    have hlen : (bytes.take (bytes.length - 1)).length = bytes.length - 1 := by
      simp [List.length_take]
    refine ⟨utf16toStringLoose (bytes.take (bytes.length - 1)) be, ?_, ?_⟩
    · rw [if_neg (by rw [hlen]; omega), if_neg (by rw [hlen]; omega)]
      simp
    · rw [if_pos hodd, if_pos hodd]
  have hbomterm : ∀ be : Bool,
      (if be then b0 * 256 + b1 else b1 * 256 + b0) = 0xFEFF →
      (∃ r2, (Except.ok (utf16toStringLoose
            (if rest.length % 2 = 1 then rest.take (rest.length - 1)
             else rest) be
          ++ (if rest.length % 2 = 1 then [0xFFFD] else []))
            : Except String (List Nat)) = .ok r2
        ∧ (Except.ok (utf16toStringLoose
            (if (b0 :: b1 :: rest).length % 2 = 1 then
              (b0 :: b1 :: rest).take ((b0 :: b1 :: rest).length - 1)
             else b0 :: b1 :: rest) be
          ++ (if (b0 :: b1 :: rest).length % 2 = 1 then [0xFFFD] else []))
            : Except String (List Nat)) = .ok (0xFEFF :: r2)) := by
    intro be hb
    have hpar : (b0 :: b1 :: rest).length % 2 = rest.length % 2 := by
      simp [List.length_cons]
      omega
    by_cases hr : rest.length % 2 = 1
    · obtain ⟨m, hm⟩ : ∃ m, rest.length = m + 1 := ⟨rest.length - 1, by omega⟩
      refine ⟨utf16toStringLoose (rest.take (rest.length - 1)) be ++ [0xFFFD],
        ?_, ?_⟩
      · rw [if_pos hr, if_pos hr]
      · rw [if_pos (by omega), if_pos (by omega),
          take_len_cons_cons b0 b1 rest m hm,
          decode16_cons_bom b0 b1 _ be hb]
        simp
    · refine ⟨utf16toStringLoose rest be, ?_, ?_⟩
      · rw [if_neg hr, if_neg hr]
        simp
      · rw [if_neg (by omega), if_neg (by omega),
          decode16_cons_bom b0 b1 _ be hb]
        simp
  rcases he with rfl | rfl
  · rw [if_neg (by decide)] at hbom
    refine ⟨?_, ?_⟩
    · rw [textDecode_utf16le, textDecode_utf16le]
      exact hterm false
    · rw [textDecode_utf16le, textDecode_utf16le]
      exact hbomterm false hbom
  · rw [if_pos rfl] at hbom
    refine ⟨?_, ?_⟩
    · rw [textDecode_utf16be, textDecode_utf16be]
      exact hterm true
    · rw [textDecode_utf16be, textDecode_utf16be]
      exact hbomterm true hbom

theorem utf16_decode_odd_length_and_bom_witness :
    (∃ r, textDecode (([0xFF, 0xFE, 0x41] : List Nat).take 2) "utf-16le"
          = .ok r
        ∧ textDecode [0xFF, 0xFE, 0x41] "utf-16le" = .ok (r ++ [0xFFFD]))
    ∧ (∃ r2, textDecode [0x41, 0x00] "utf-16le" = .ok r2
        ∧ textDecode (0xFF :: 0xFE :: [0x41, 0x00]) "utf-16le"
          = .ok (0xFEFF :: r2)) :=
  utf16_decode_odd_length_and_bom [0xFF, 0xFE, 0x41] "utf-16le" 0xFF 0xFE
    [0x41, 0x00] (Or.inl rfl) (by decide) (by decide)

end TextCodec

namespace TextCodec

/-- C5: UTF-8 encode combines adjacent high-low surrogate pairs into
`0x10000 + (high - 0xD800) * 0x400 + (low - 0xDC00)` encoded in 4
bytes, and replaces every lone surrogate with the 3-byte sequence
EF BF BD, one replacement per lone surrogate. -/
theorem utf8_encode_surrogate_policy (hi lo d : Nat) (rest : List Nat)
    (hhi : 0xD800 ≤ hi ∧ hi ≤ 0xDBFF) (hlo : 0xDC00 ≤ lo ∧ lo ≤ 0xDFFF)
    (hd : ¬(0xDC00 ≤ d ∧ d ≤ 0xDFFF)) :
    utf8fromStringLoose (hi :: lo :: rest)
        = utf8EncodeCodePoint
            (0x10000 + (hi - 0xD800) * 0x400 + (lo - 0xDC00))
          ++ utf8fromStringLoose rest
    ∧ (utf8EncodeCodePoint
        (0x10000 + (hi - 0xD800) * 0x400 + (lo - 0xDC00))).length = 4
    ∧ utf8fromStringLoose (hi :: d :: rest)
        = [0xEF, 0xBF, 0xBD] ++ utf8fromStringLoose (d :: rest)
    ∧ utf8fromStringLoose [hi] = [0xEF, 0xBF, 0xBD]
    ∧ utf8fromStringLoose (lo :: rest)
        = [0xEF, 0xBF, 0xBD] ++ utf8fromStringLoose rest
    ∧ utf8fromStringLoose [0xD800] = [0xEF, 0xBF, 0xBD]
    ∧ utf8fromStringLoose [0xD800, 0xD800]
        = [0xEF, 0xBF, 0xBD, 0xEF, 0xBF, 0xBD] := by
  have hh : isHighSurrogate hi = true := (isHigh_iff hi).mpr hhi
  have hl : isLowSurrogate lo = true := (isLow_iff lo).mpr hlo
  have hsh : isSurrogate hi = true := (isSurr_iff hi).mpr (by omega)
  have hsl : isSurrogate lo = true := (isSurr_iff lo).mpr (by omega)
  have hld : isLowSurrogate d = false := isLow_false d hd
  have hhlo : isHighSurrogate lo = false := isHigh_false lo (by omega)
  refine ⟨?_, ?_, ?_, ?_, ?_, rfl, rfl⟩
  · simp [utf8fromStringLoose, hh, hl]
  · unfold utf8EncodeCodePoint
    rw [if_neg (by omega), if_neg (by omega), if_neg (by omega)]
    rfl
  · simp [utf8fromStringLoose, hh, hld, hsh]
  · simp [utf8fromStringLoose, hsh]
  · cases rest with
    | nil => simp [utf8fromStringLoose, hsl]
    | cons e r => simp [utf8fromStringLoose, hhlo, hsl]

theorem utf8_encode_surrogate_policy_witness :
    utf8fromStringLoose [0xD800, 0xDC00]
        = utf8EncodeCodePoint
            (0x10000 + (0xD800 - 0xD800) * 0x400 + (0xDC00 - 0xDC00))
          ++ utf8fromStringLoose []
    ∧ utf8fromStringLoose [0xD800, 0x41]
        = [0xEF, 0xBF, 0xBD] ++ utf8fromStringLoose [0x41] := by
  have h := utf8_encode_surrogate_policy 0xD800 0xDC00 0x41 []
    (by omega) (by omega) (by omega)
  exact ⟨h.1, h.2.2.1⟩

end TextCodec

namespace TextCodec

lemma utf8dec_ascii (b : Nat) (h : b ≤ 0x7F) (t : List Nat) :
    utf8toStringLoose (b :: t) = b :: utf8toStringLoose t := by
  match t with
  | [] => rw [utf8toStringLoose.eq_5, if_pos h]
  | [x1] => rw [utf8toStringLoose.eq_4, if_pos h]
  | [x1, x2] => rw [utf8toStringLoose.eq_3, if_pos h]
  | x1 :: x2 :: x3 :: t3 => rw [utf8toStringLoose.eq_2, if_pos h]

lemma utf8dec_2byte (b c1 : Nat) (hb : 0xC2 ≤ b ∧ b ≤ 0xDF)
    (hc : 0x80 ≤ c1 ∧ c1 ≤ 0xBF) (t : List Nat) :
    utf8toStringLoose (b :: c1 :: t)
      = ((b - 0xC0) * 64 + (c1 - 0x80)) :: utf8toStringLoose t := by
  match t with
  | [] => rw [utf8toStringLoose.eq_4, if_neg (by omega), if_pos hb, if_pos hc]
  | [x1] => rw [utf8toStringLoose.eq_3, if_neg (by omega), if_pos hb, if_pos hc]
  | x1 :: x2 :: t2 =>
    rw [utf8toStringLoose.eq_2, if_neg (by omega), if_pos hb, if_pos hc]

lemma utf8dec_3byte (b c1 c2 : Nat) (hb : 0xE0 ≤ b ∧ b ≤ 0xEF)
    (hc1 : cont3lo b ≤ c1 ∧ c1 ≤ cont3hi b) (hc2 : 0x80 ≤ c2 ∧ c2 ≤ 0xBF)
    (t : List Nat) :
    utf8toStringLoose (b :: c1 :: c2 :: t)
      = ((b - 0xE0) * 4096 + (c1 - 0x80) * 64 + (c2 - 0x80))
        :: utf8toStringLoose t := by
  match t with
  | [] =>
    rw [utf8toStringLoose.eq_3, if_neg (by omega), if_neg (by omega),
      if_pos hb, if_pos hc1, if_pos hc2]
  | x1 :: t1 =>
    rw [utf8toStringLoose.eq_2, if_neg (by omega), if_neg (by omega),
      if_pos hb, if_pos hc1, if_pos hc2]

lemma utf8dec_4byte (b c1 c2 c3 : Nat) (hb : 0xF0 ≤ b ∧ b ≤ 0xF4)
    (hc1 : cont4lo b ≤ c1 ∧ c1 ≤ cont4hi b) (hc2 : 0x80 ≤ c2 ∧ c2 ≤ 0xBF)
    (hc3 : 0x80 ≤ c3 ∧ c3 ≤ 0xBF) (t : List Nat) :
    utf8toStringLoose (b :: c1 :: c2 :: c3 :: t)
      = utf16Units ((b - 0xF0) * 262144 + (c1 - 0x80) * 4096
          + (c2 - 0x80) * 64 + (c3 - 0x80))
        ++ utf8toStringLoose t := by
  rw [utf8toStringLoose.eq_2, if_neg (by omega), if_neg (by omega),
    if_neg (by omega), if_pos hb, if_pos hc1, if_pos hc2, if_pos hc3]

lemma utf8dec_invalid_lead (b : Nat) (t : List Nat)
    (h : (0x80 ≤ b ∧ b ≤ 0xC1) ∨ 0xF5 ≤ b) :
    utf8toStringLoose (b :: t) = 0xFFFD :: utf8toStringLoose t := by
  match t with
  | [] =>
    rw [utf8toStringLoose.eq_5, if_neg (by omega), if_neg (by omega),
      if_neg (by omega), if_neg (by omega)]
  | [x1] =>
    rw [utf8toStringLoose.eq_4, if_neg (by omega), if_neg (by omega),
      if_neg (by omega), if_neg (by omega)]
  | [x1, x2] =>
    rw [utf8toStringLoose.eq_3, if_neg (by omega), if_neg (by omega),
      if_neg (by omega), if_neg (by omega)]
  | x1 :: x2 :: x3 :: t3 =>
    rw [utf8toStringLoose.eq_2, if_neg (by omega), if_neg (by omega),
      if_neg (by omega), if_neg (by omega)]

lemma utf8dec_2byte_badcont (b c1 : Nat) (t : List Nat)
    (hb : 0xC2 ≤ b ∧ b ≤ 0xDF) (hc : ¬(0x80 ≤ c1 ∧ c1 ≤ 0xBF)) :
    utf8toStringLoose (b :: c1 :: t)
      = 0xFFFD :: utf8toStringLoose (c1 :: t) := by
  match t with
  | [] => rw [utf8toStringLoose.eq_4, if_neg (by omega), if_pos hb, if_neg hc]
  | [x1] => rw [utf8toStringLoose.eq_3, if_neg (by omega), if_pos hb, if_neg hc]
  | x1 :: x2 :: t2 =>
    rw [utf8toStringLoose.eq_2, if_neg (by omega), if_pos hb, if_neg hc]

lemma utf8dec_lead_trunc (b : Nat) (h : 0xC2 ≤ b ∧ b ≤ 0xF4) :
    utf8toStringLoose [b] = [0xFFFD] := by
  rw [utf8toStringLoose.eq_5, if_neg (by omega)]
  by_cases h2 : 0xC2 ≤ b ∧ b ≤ 0xDF
  · rw [if_pos h2]
  · rw [if_neg h2]
    by_cases h3 : 0xE0 ≤ b ∧ b ≤ 0xEF
    · rw [if_pos h3]
    · rw [if_neg h3, if_pos (by omega)]

lemma utf8dec_3byte_badc1 (b c1 : Nat) (t : List Nat)
    (hb : 0xE0 ≤ b ∧ b ≤ 0xEF)
    (hc : ¬(cont3lo b ≤ c1 ∧ c1 ≤ cont3hi b)) :
    utf8toStringLoose (b :: c1 :: t)
      = 0xFFFD :: utf8toStringLoose (c1 :: t) := by
  match t with
  | [] =>
    rw [utf8toStringLoose.eq_4, if_neg (by omega), if_neg (by omega),
      if_pos hb, if_neg hc]
  | [x1] =>
    rw [utf8toStringLoose.eq_3, if_neg (by omega), if_neg (by omega),
      if_pos hb, if_neg hc]
  | x1 :: x2 :: t2 =>
    rw [utf8toStringLoose.eq_2, if_neg (by omega), if_neg (by omega),
      if_pos hb, if_neg hc]

lemma utf8dec_3byte_badc2 (b c1 c2 : Nat) (t : List Nat)
    (hb : 0xE0 ≤ b ∧ b ≤ 0xEF)
    (hc1 : cont3lo b ≤ c1 ∧ c1 ≤ cont3hi b)
    (hc2 : ¬(0x80 ≤ c2 ∧ c2 ≤ 0xBF)) :
    utf8toStringLoose (b :: c1 :: c2 :: t)
      = 0xFFFD :: utf8toStringLoose (c2 :: t) := by
  match t with
  | [] =>
    rw [utf8toStringLoose.eq_3, if_neg (by omega), if_neg (by omega),
      if_pos hb, if_pos hc1, if_neg hc2]
  | x1 :: t1 =>
    rw [utf8toStringLoose.eq_2, if_neg (by omega), if_neg (by omega),
      if_pos hb, if_pos hc1, if_neg hc2]

lemma utf8dec_3byte_trunc2 (b c1 : Nat) (hb : 0xE0 ≤ b ∧ b ≤ 0xEF)
    (hc1 : cont3lo b ≤ c1 ∧ c1 ≤ cont3hi b) :
    utf8toStringLoose [b, c1] = [0xFFFD] := by
  rw [utf8toStringLoose.eq_4, if_neg (by omega), if_neg (by omega),
    if_pos hb, if_pos hc1]

lemma utf8dec_4byte_badc1 (b c1 : Nat) (t : List Nat)
    (hb : 0xF0 ≤ b ∧ b ≤ 0xF4)
    (hc : ¬(cont4lo b ≤ c1 ∧ c1 ≤ cont4hi b)) :
    utf8toStringLoose (b :: c1 :: t)
      = 0xFFFD :: utf8toStringLoose (c1 :: t) := by
  match t with
  | [] =>
    rw [utf8toStringLoose.eq_4, if_neg (by omega), if_neg (by omega),
      if_neg (by omega), if_pos hb, if_neg hc]
  | [x1] =>
    rw [utf8toStringLoose.eq_3, if_neg (by omega), if_neg (by omega),
      if_neg (by omega), if_pos hb, if_neg hc]
  | x1 :: x2 :: t2 =>
    rw [utf8toStringLoose.eq_2, if_neg (by omega), if_neg (by omega),
      if_neg (by omega), if_pos hb, if_neg hc]

lemma utf8dec_4byte_badc2 (b c1 c2 : Nat) (t : List Nat)
    (hb : 0xF0 ≤ b ∧ b ≤ 0xF4)
    (hc1 : cont4lo b ≤ c1 ∧ c1 ≤ cont4hi b)
    (hc2 : ¬(0x80 ≤ c2 ∧ c2 ≤ 0xBF)) :
    utf8toStringLoose (b :: c1 :: c2 :: t)
      = 0xFFFD :: utf8toStringLoose (c2 :: t) := by
  match t with
  | [] =>
    rw [utf8toStringLoose.eq_3, if_neg (by omega), if_neg (by omega),
      if_neg (by omega), if_pos hb, if_pos hc1, if_neg hc2]
  | x1 :: t1 =>
    rw [utf8toStringLoose.eq_2, if_neg (by omega), if_neg (by omega),
      if_neg (by omega), if_pos hb, if_pos hc1, if_neg hc2]

lemma utf8dec_4byte_badc3 (b c1 c2 c3 : Nat) (t : List Nat)
    (hb : 0xF0 ≤ b ∧ b ≤ 0xF4)
    (hc1 : cont4lo b ≤ c1 ∧ c1 ≤ cont4hi b)
    (hc2 : 0x80 ≤ c2 ∧ c2 ≤ 0xBF)
    (hc3 : ¬(0x80 ≤ c3 ∧ c3 ≤ 0xBF)) :
    utf8toStringLoose (b :: c1 :: c2 :: c3 :: t)
      = 0xFFFD :: utf8toStringLoose (c3 :: t) := by
  rw [utf8toStringLoose.eq_2, if_neg (by omega), if_neg (by omega),
    if_neg (by omega), if_pos hb, if_pos hc1, if_pos hc2, if_neg hc3]

lemma utf8dec_4byte_trunc2 (b c1 : Nat) (hb : 0xF0 ≤ b ∧ b ≤ 0xF4)
    (hc1 : cont4lo b ≤ c1 ∧ c1 ≤ cont4hi b) :
    utf8toStringLoose [b, c1] = [0xFFFD] := by
  rw [utf8toStringLoose.eq_4, if_neg (by omega), if_neg (by omega),
    if_neg (by omega), if_pos hb, if_pos hc1]

lemma utf8dec_4byte_trunc3 (b c1 c2 : Nat) (hb : 0xF0 ≤ b ∧ b ≤ 0xF4)
    (hc1 : cont4lo b ≤ c1 ∧ c1 ≤ cont4hi b)
    (hc2 : 0x80 ≤ c2 ∧ c2 ≤ 0xBF) :
    utf8toStringLoose [b, c1, c2] = [0xFFFD] := by
  rw [utf8toStringLoose.eq_3, if_neg (by omega), if_neg (by omega),
    if_neg (by omega), if_pos hb, if_pos hc1, if_pos hc2]

end TextCodec

namespace TextCodec

/-- C6: every malformed branch of the UTF-8 decoder substitutes exactly
one U+FFFD for the maximal subpart consumed so far and resumes at the
first rejected byte: invalid lead bytes, failed continuation bytes at
each position (including overlong and surrogate windows via
`cont3lo`/`cont3hi`/`cont4lo`/`cont4hi`), and truncation at end of
input; in particular [F0 90 80] gives one U+FFFD and [F0 80 80] gives
three. -/
theorem utf8_decode_maximal_subpart (b c1 c2 c3 : Nat) (t : List Nat) :
    ((0x80 ≤ b ∧ b ≤ 0xC1) ∨ 0xF5 ≤ b →
      utf8toStringLoose (b :: t) = 0xFFFD :: utf8toStringLoose t)
    ∧ (0xC2 ≤ b ∧ b ≤ 0xF4 → utf8toStringLoose [b] = [0xFFFD])
    ∧ (0xC2 ≤ b ∧ b ≤ 0xDF → ¬(0x80 ≤ c1 ∧ c1 ≤ 0xBF) →
      utf8toStringLoose (b :: c1 :: t)
        = 0xFFFD :: utf8toStringLoose (c1 :: t))
    ∧ (0xE0 ≤ b ∧ b ≤ 0xEF → ¬(cont3lo b ≤ c1 ∧ c1 ≤ cont3hi b) →
      utf8toStringLoose (b :: c1 :: t)
        = 0xFFFD :: utf8toStringLoose (c1 :: t))
    ∧ (0xE0 ≤ b ∧ b ≤ 0xEF → cont3lo b ≤ c1 ∧ c1 ≤ cont3hi b →
      ¬(0x80 ≤ c2 ∧ c2 ≤ 0xBF) →
      utf8toStringLoose (b :: c1 :: c2 :: t)
        = 0xFFFD :: utf8toStringLoose (c2 :: t))
    ∧ (0xE0 ≤ b ∧ b ≤ 0xEF → cont3lo b ≤ c1 ∧ c1 ≤ cont3hi b →
      utf8toStringLoose [b, c1] = [0xFFFD])
    ∧ (0xF0 ≤ b ∧ b ≤ 0xF4 → ¬(cont4lo b ≤ c1 ∧ c1 ≤ cont4hi b) →
      utf8toStringLoose (b :: c1 :: t)
        = 0xFFFD :: utf8toStringLoose (c1 :: t))
    ∧ (0xF0 ≤ b ∧ b ≤ 0xF4 → cont4lo b ≤ c1 ∧ c1 ≤ cont4hi b →
      ¬(0x80 ≤ c2 ∧ c2 ≤ 0xBF) →
      utf8toStringLoose (b :: c1 :: c2 :: t)
        = 0xFFFD :: utf8toStringLoose (c2 :: t))
    ∧ (0xF0 ≤ b ∧ b ≤ 0xF4 → cont4lo b ≤ c1 ∧ c1 ≤ cont4hi b →
      0x80 ≤ c2 ∧ c2 ≤ 0xBF → ¬(0x80 ≤ c3 ∧ c3 ≤ 0xBF) →
      utf8toStringLoose (b :: c1 :: c2 :: c3 :: t)
        = 0xFFFD :: utf8toStringLoose (c3 :: t))
    ∧ (0xF0 ≤ b ∧ b ≤ 0xF4 → cont4lo b ≤ c1 ∧ c1 ≤ cont4hi b →
      utf8toStringLoose [b, c1] = [0xFFFD])
    ∧ (0xF0 ≤ b ∧ b ≤ 0xF4 → cont4lo b ≤ c1 ∧ c1 ≤ cont4hi b →
      0x80 ≤ c2 ∧ c2 ≤ 0xBF → utf8toStringLoose [b, c1, c2] = [0xFFFD])
    ∧ utf8toStringLoose [0xF0, 0x90, 0x80] = [0xFFFD]
    ∧ utf8toStringLoose [0xF0, 0x80, 0x80]
        = [0xFFFD, 0xFFFD, 0xFFFD] :=
  ⟨fun h => utf8dec_invalid_lead b t h,
    fun hb => utf8dec_lead_trunc b hb,
    fun hb hc => utf8dec_2byte_badcont b c1 t hb hc,
    fun hb hc => utf8dec_3byte_badc1 b c1 t hb hc,
    fun hb hc1 hc2 => utf8dec_3byte_badc2 b c1 c2 t hb hc1 hc2,
    fun hb hc1 => utf8dec_3byte_trunc2 b c1 hb hc1,
    fun hb hc => utf8dec_4byte_badc1 b c1 t hb hc,
    fun hb hc1 hc2 => utf8dec_4byte_badc2 b c1 c2 t hb hc1 hc2,
    fun hb hc1 hc2 hc3 => utf8dec_4byte_badc3 b c1 c2 c3 t hb hc1 hc2 hc3,
    fun hb hc1 => utf8dec_4byte_trunc2 b c1 hb hc1,
    fun hb hc1 hc2 => utf8dec_4byte_trunc3 b c1 c2 hb hc1 hc2,
    rfl, rfl⟩

theorem utf8_decode_maximal_subpart_witness :
    utf8toStringLoose [0x80] = 0xFFFD :: utf8toStringLoose []
    ∧ utf8toStringLoose [0xE0] = [0xFFFD]
    ∧ utf8toStringLoose (0xE0 :: 0x80 :: [])
        = 0xFFFD :: utf8toStringLoose (0x80 :: []) :=
  ⟨(utf8_decode_maximal_subpart 0x80 0 0 0 []).1 (by omega),
    (utf8_decode_maximal_subpart 0xE0 0 0 0 []).2.1 (by omega),
    (utf8_decode_maximal_subpart 0xE0 0x80 0 0 []).2.2.2.1 (by omega)
      (by decide)⟩

end TextCodec

namespace TextCodec

lemma utf8_decode_encodeCP (cp : Nat) (t : List Nat) (h1 : cp < 0x110000)
    (h2 : ¬(0xD800 ≤ cp ∧ cp ≤ 0xDFFF)) :
    utf8toStringLoose (utf8EncodeCodePoint cp ++ t)
      = utf16Units cp ++ utf8toStringLoose t := by
  by_cases hA : cp ≤ 0x7F
  · rw [utf8EncodeCodePoint, if_pos hA, utf16Units, if_pos (by omega)]
    simp only [List.cons_append, List.nil_append]
    exact utf8dec_ascii cp hA t
  · by_cases hB : cp ≤ 0x7FF
    · rw [utf8EncodeCodePoint, if_neg hA, if_pos hB, utf16Units,
        if_pos (by omega)]
      simp only [List.cons_append, List.nil_append]
      rw [utf8dec_2byte _ _ (by omega) (by omega) t]
      have : (0xC0 + cp / 64 - 0xC0) * 64 + (0x80 + cp % 64 - 0x80) = cp := by
        omega
      rw [this]
    · by_cases hC : cp ≤ 0xFFFF
      · have hc1 : cont3lo (0xE0 + cp / 4096) ≤ 0x80 + cp / 64 % 64
            ∧ 0x80 + cp / 64 % 64 ≤ cont3hi (0xE0 + cp / 4096) := by
          unfold cont3lo cont3hi
          constructor
          · split_ifs with he
            · omega
            · omega
          · split_ifs with he
            · omega
            · omega
        rw [utf8EncodeCodePoint, if_neg hA, if_neg hB, if_pos hC, utf16Units,
          if_pos (by omega)]
        simp only [List.cons_append, List.nil_append]
        rw [utf8dec_3byte _ _ _ (by omega) hc1 (by omega) t]
        have : (0xE0 + cp / 4096 - 0xE0) * 4096
            + (0x80 + cp / 64 % 64 - 0x80) * 64
            + (0x80 + cp % 64 - 0x80) = cp := by
          omega
        rw [this]
      · have hc1 : cont4lo (0xF0 + cp / 262144) ≤ 0x80 + cp / 4096 % 64
            ∧ 0x80 + cp / 4096 % 64 ≤ cont4hi (0xF0 + cp / 262144) := by
          unfold cont4lo cont4hi
          constructor
          · split_ifs with he
            · omega
            · omega
          · split_ifs with he
            · omega
            · omega
        rw [utf8EncodeCodePoint, if_neg hA, if_neg hB, if_neg hC]
        simp only [List.cons_append, List.nil_append]
        rw [utf8dec_4byte _ _ _ _ (by omega) hc1 (by omega) (by omega) t]
        have : (0xF0 + cp / 262144 - 0xF0) * 262144
            + (0x80 + cp / 4096 % 64 - 0x80) * 4096
            + (0x80 + cp / 64 % 64 - 0x80) * 64
            + (0x80 + cp % 64 - 0x80) = cp := by
          omega
        rw [this]

end TextCodec

namespace TextCodec

lemma utf8_roundtrip : ∀ s : List Nat, wellFormedUnits s = true →
    utf8toStringLoose (utf8fromStringLoose s) = s
  | [], _ => rfl
  | [c], h => by
    rw [wellFormedUnits.eq_2, Bool.and_eq_true, decide_eq_true_eq,
      Bool.not_eq_true'] at h
    rw [utf8fromStringLoose.eq_2, if_neg (by rw [h.2]; simp)]
    have := utf8_decode_encodeCP c [] (by omega)
      (by have := isSurr_false c; intro hc; rw [(isSurr_iff c).mpr hc] at h
          exact absurd h.2 (by decide))
    rw [List.append_nil] at this
    rw [this, utf16Units, if_pos (by omega), utf8toStringLoose.eq_1]
    simp
  | c :: d :: rest, h => by
    rw [wellFormedUnits.eq_3] at h
    by_cases hc : isHighSurrogate c = true
    · rw [if_pos hc, Bool.and_eq_true] at h
      have hcr := (isHigh_iff c).mp hc
      have hdr := (isLow_iff d).mp h.1
      rw [utf8fromStringLoose.eq_3, if_pos (by rw [hc, h.1]; rfl)]
      rw [utf8_decode_encodeCP _ _ (by omega) (by omega)]
      rw [utf8_roundtrip rest h.2]
      rw [utf16Units, if_neg (by omega)]
      have hA : 0xD800 + (0x10000 + (c - 0xD800) * 0x400 + (d - 0xDC00)
          - 0x10000) / 0x400 = c := by
        omega
      have hB : 0xDC00 + (0x10000 + (c - 0xD800) * 0x400 + (d - 0xDC00)
          - 0x10000) % 0x400 = d := by
        omega
      rw [hA, hB]
      rfl
    · rw [if_neg hc, Bool.and_eq_true, Bool.and_eq_true,
        decide_eq_true_eq, Bool.not_eq_true'] at h
      obtain ⟨⟨h1, h2⟩, h3⟩ := h
      have hcc : (isHighSurrogate c && isLowSurrogate d) = false := by
        cases hb : isHighSurrogate c
        · rfl
        · exact absurd hb hc
      rw [utf8fromStringLoose.eq_3, if_neg (by rw [hcc]; simp),
        if_neg (by rw [h2]; simp)]
      rw [utf8_decode_encodeCP _ _ (by omega)
        (by intro hcon; rw [(isSurr_iff c).mpr hcon] at h2; exact absurd h2 (by decide))]
      rw [utf8_roundtrip (d :: rest) h3]
      rw [utf16Units, if_pos (by omega)]
      rfl
  termination_by s _ => s.length

end TextCodec

namespace TextCodec

lemma utf16le_roundtrip (s : List Nat) (h : wellFormedUnits s = true) :
    textDecode (utf16fromStringLoose s false) "utf-16le" = .ok s := by
  rw [textDecode_utf16le, if_neg (by rw [encode16_length]; omega),
    if_neg (by rw [encode16_length]; omega),
    decode16_encode16 s false (wf_mem_lt s h), fixLone_wf s h,
    List.append_nil]

lemma utf16be_roundtrip (s : List Nat) (h : wellFormedUnits s = true) :
    textDecode (utf16fromStringLoose s true) "utf-16be" = .ok s := by
  rw [textDecode_utf16be, if_neg (by rw [encode16_length]; omega),
    if_neg (by rw [encode16_length]; omega),
    decode16_encode16 s true (wf_mem_lt s h), fixLone_wf s h,
    List.append_nil]

/-- C1 (amended): for each canonical identifier, every code-unit
sequence whose units both survive the encode rules unchanged and are
mapped back to themselves by decode round-trips exactly; the 27
windows-1252 extended-Latin code points round-trip exactly. -/
theorem roundtrip_of_representable (e : String) (s : List Nat)
    (h : representableIn e s = true) :
    (∃ bytes, textEncode s e = .ok bytes ∧ textDecode bytes e = .ok s)
    ∧ (∃ bytes,
        textEncode w1252ExtendedChars "windows-1252" = .ok bytes
        ∧ textDecode bytes "windows-1252" = .ok w1252ExtendedChars) := by
  refine ⟨?_, ⟨encodeWindows1252 w1252ExtendedChars, rfl, rfl⟩⟩
  unfold representableIn at h
  split_ifs at h with h1 h2 h3 h4 h5
  · simp only [Bool.or_eq_true, decide_eq_true_eq] at h1
    rcases h1 with rfl | rfl
    · exact ⟨utf8fromStringLoose s, rfl, by
        show Except.ok (utf8toStringLoose (utf8fromStringLoose s)) = _
        rw [utf8_roundtrip s h]⟩
    · exact ⟨utf8fromStringLoose s, rfl, by
        show Except.ok (utf8toStringLoose (utf8fromStringLoose s)) = _
        rw [utf8_roundtrip s h]⟩
  · simp only [Bool.or_eq_true, decide_eq_true_eq] at h2
    rcases h2 with rfl | rfl
    · exact ⟨utf16fromStringLoose s false, rfl, utf16le_roundtrip s h⟩
    · exact ⟨utf16fromStringLoose s true, rfl, utf16be_roundtrip s h⟩
  · simp only [Bool.or_eq_true, decide_eq_true_eq] at h3
    rcases h3 with rfl | rfl
    · exact ⟨encodeASCII s, rfl, by
        show Except.ok (decodeASCII (encodeASCII s)) = _
        rw [decode_encode_ascii s h]⟩
    · exact ⟨encodeASCII s, rfl, by
        show Except.ok (decodeASCII (encodeASCII s)) = _
        rw [decode_encode_ascii s h]⟩
  · simp only [Bool.or_eq_true, decide_eq_true_eq] at h4
    rcases h4 with rfl | rfl
    · exact ⟨encodeLatin1 s, rfl, by
        show Except.ok (decodeLatin1 (encodeLatin1 s)) = _
        rw [decode_encode_latin1 s h]⟩
    · exact ⟨encodeLatin1 s, rfl, by
        show Except.ok (decodeLatin1 (encodeLatin1 s)) = _
        rw [decode_encode_latin1 s h]⟩
  · simp only [decide_eq_true_eq] at h5
    subst h5
    exact ⟨encodeWindows1252 s, rfl, by
      show Except.ok (decodeWindows1252 (encodeWindows1252 s)) = _
      rw [decode_encode_w1252 s h]⟩

theorem roundtrip_of_representable_witness :
    (∃ bytes, textEncode [0x48, 0x20AC, 0xD834, 0xDD1E] "utf-8" = .ok bytes
      ∧ textDecode bytes "utf-8" = .ok [0x48, 0x20AC, 0xD834, 0xDD1E])
    ∧ (∃ bytes,
        textEncode w1252ExtendedChars "windows-1252" = .ok bytes
        ∧ textDecode bytes "windows-1252" = .ok w1252ExtendedChars) :=
  roundtrip_of_representable "utf-8" [0x48, 0x20AC, 0xD834, 0xDD1E]
    (by decide)

/-- C1 counterexample: the code unit 0x80 survives the windows-1252
encode rules unchanged (it is emitted directly as byte 0x80), yet the
decoder maps byte 0x80 through the extension table to U+20AC, so
decode(encode([0x80])) differs from [0x80]. -/
theorem w1252_unit_0x80_breaks_roundtrip :
    textEncode [0x80] "windows-1252" = .ok [0x80]
    ∧ textDecode [0x80] "windows-1252" = .ok [0x20AC]
    ∧ ¬(([0x20AC] : List Nat) = [0x80]) :=
  ⟨rfl, rfl, by decide⟩

end TextCodec
